import Mathlib

/-!
Verification of the workload anti-affinity scheduling core of mszacillo/karmada.

The development shallowly embeds:

* the data model read by the core (ResourceBinding, ResourceBindingSpec,
  Placement, WorkloadAffinity, Cluster, AntiKey);
* the scheduler cache index maps and their event handlers
  (schedulerCache.indexRB, schedulerCache.unindexRB,
  OnResourceBindingAdd/Update/Delete, getRBFromObj) from the cache source;
* the Snapshot type with its query methods GetPeerResourceBindings and
  GetClustersForResourceBinding, and the AntiAffinity.Filter plugin;
* a reference-and-heap model of the same cache in which Go slice cells are
  addressed by references into an explicit heap, used to state and prove that
  a taken Snapshot is unaffected by subsequent writes to the cache.

Go maps are embedded as functions into Option (a missing key reads as none);
Go string sets as Finset String; Go slices as Lean lists.  The feature gate
and the cluster roster, which the source reads from process-wide state and
from an external lister, are passed as explicit arguments.
-/

namespace Karmada

/-- A workload affinity directive carried by a placement; the source type
WorkloadAffinity has the single field AffinityLabelKey. -/
structure WorkloadAffinity where
  AffinityLabelKey : String
deriving DecidableEq

/-- The projection of the Placement type read by the core: the optional
workload affinity directive. -/
structure Placement where
  WorkloadAffinity : Option WorkloadAffinity

/-- The projection of the object reference inside a ResourceBindingSpec that
the core reads: resource namespace and name, and the AffinityGroupLabel map
from label key to label value.  The Go map read rbSpec.Resource.AffinityGroupLabel[k]
yields the empty string for a missing key, so the map is embedded as a total
function into String. -/
structure ObjectReference where
  Namespace : String
  Name : String
  AffinityGroupLabel : String → String

/-- One target cluster entry of rb.Spec.Clusters. -/
structure TargetCluster where
  Name : String
deriving DecidableEq

/-- The projection of ResourceBindingSpec read by the core. -/
structure ResourceBindingSpec where
  Placement : Placement
  Resource : ObjectReference
  Clusters : List TargetCluster

/-- A resource binding: object metadata namespace and name plus the spec. -/
structure ResourceBinding where
  Namespace : String
  Name : String
  Spec : ResourceBindingSpec

/-- A member cluster; the core reads only the name and the readiness flag. -/
structure Cluster where
  Name : String
  Ready : Bool
deriving DecidableEq

/-- The affinity-group key of the cache index maps, as in the cache source. -/
structure AntiKey where
  Namespace : String
  LabelKey : String
  GroupValue : String
deriving DecidableEq

/-- MakeAntiKey from the cache source. -/
def MakeAntiKey (ns key value : String) : AntiKey :=
  ⟨ns, key, value⟩

/-- The binding id used by the index: rb.Namespace + "/" + rb.Name. -/
def rbIDOf (rb : ResourceBinding) : String :=
  rb.Namespace ++ "/" ++ rb.Name

/-- The cluster set stored for a binding: the loop in indexRB inserting each
target cluster name into a fresh set. -/
def clusterSetOf (rb : ResourceBinding) : Finset String :=
  rb.Spec.Clusters.foldl (fun s t => insert t.Name s) ∅

/-- The two index maps of schedulerCache.  affinityGroups maps an AntiKey to
the slice of binding ids of the group (a missing key is none); clustersByRB
maps a binding id to its stored cluster set. -/
structure CacheState where
  affinityGroups : AntiKey → Option (List String)
  clustersByRB : String → Option (Finset String)

/-- schedulerCache.indexRB: ignore the binding unless its target cluster list
is non-empty, its placement carries a WorkloadAffinity with a non-empty
AffinityLabelKey, and the workload carries a non-empty value for that label;
otherwise append the binding id to its affinity group slice and store its
target cluster set. -/
def indexRB (c : CacheState) (rb : ResourceBinding) : CacheState :=
  if rb.Spec.Clusters.length = 0 then c
  else
    match rb.Spec.Placement.WorkloadAffinity with
    | none => c
    | some affinityTerm =>
      if affinityTerm.AffinityLabelKey = "" then c
      else
        let groupValue := rb.Spec.Resource.AffinityGroupLabel affinityTerm.AffinityLabelKey
        if groupValue = "" then c
        else
          let rbID := rbIDOf rb
          let key := MakeAntiKey rb.Namespace affinityTerm.AffinityLabelKey groupValue
          { affinityGroups := fun k =>
              if k = key then some ((c.affinityGroups key).getD [] ++ [rbID])
              else c.affinityGroups k,
            clustersByRB := fun id =>
              if id = rbID then some (clusterSetOf rb) else c.clustersByRB id }

/-- The in-place removal loop of unindexRB: keep the ids of the slice that
differ from the binding id, preserving order. -/
def removeID (slice : List String) (rbID : String) : List String :=
  slice.filter (fun id => id ≠ rbID)

/-- schedulerCache.unindexRB: return early unless the binding carries a
WorkloadAffinity with non-empty AffinityLabelKey and a non-empty group label
value; otherwise filter the binding id out of its group slice (deleting the
bucket when the filtered slice is empty) and delete its clustersByRB entry. -/
def unindexRB (c : CacheState) (rb : ResourceBinding) : CacheState :=
  match rb.Spec.Placement.WorkloadAffinity with
  | none => c
  | some affinityTerm =>
    if affinityTerm.AffinityLabelKey = "" then c
    else
      let groupValue := rb.Spec.Resource.AffinityGroupLabel affinityTerm.AffinityLabelKey
      if groupValue = "" then c
      else
        let rbID := rbIDOf rb
        let key := MakeAntiKey rb.Namespace affinityTerm.AffinityLabelKey groupValue
        let g1 : AntiKey → Option (List String) :=
          match c.affinityGroups key with
          | none => c.affinityGroups
          | some slice =>
            let filtered := removeID slice rbID
            if filtered = [] then
              fun k => if k = key then none else c.affinityGroups k
            else
              fun k => if k = key then some filtered else c.affinityGroups k
        { affinityGroups := g1,
          clustersByRB := fun id => if id = rbID then none else c.clustersByRB id }

/-- The payload delivered to an event handler: a ResourceBinding, a deletion
tombstone (cache.DeletedFinalStateUnknown) wrapping some payload, or an
unrecognized shape. -/
inductive TombInner where
  | rb (b : ResourceBinding)
  | other

/-- Event payload shapes recognized by getRBFromObj. -/
inductive Obj where
  | rb (b : ResourceBinding)
  | tombstone (inner : TombInner)
  | other

/-- getRBFromObj from the cache source: unwrap a ResourceBinding, or a
tombstone wrapping one; anything else yields none. -/
def getRBFromObj : Obj → Option ResourceBinding
  | Obj.rb b => some b
  | Obj.tombstone (TombInner.rb b) => some b
  | Obj.tombstone TombInner.other => none
  | Obj.other => none

/-- schedulerCache.OnResourceBindingAdd. -/
def OnResourceBindingAdd (c : CacheState) (obj : Obj) : CacheState :=
  match getRBFromObj obj with
  | none => c
  | some rb => indexRB c rb

/-- schedulerCache.OnResourceBindingUpdate: drop the event if either payload
is unrecognized; otherwise unindex the old binding then index the new one. -/
def OnResourceBindingUpdate (c : CacheState) (oldObj newObj : Obj) : CacheState :=
  match getRBFromObj oldObj, getRBFromObj newObj with
  | some oldRB, some newRB => indexRB (unindexRB c oldRB) newRB
  | _, _ => c

/-- schedulerCache.OnResourceBindingDelete. -/
def OnResourceBindingDelete (c : CacheState) (obj : Obj) : CacheState :=
  match getRBFromObj obj with
  | none => c
  | some rb => unindexRB c rb

/-- The Snapshot value consumed by filter plugins: the cluster roster and the
two copied index maps. -/
structure Snapshot where
  clusters : List Cluster
  clustersByRB : String → Option (Finset String)
  affinityGroups : AntiKey → Option (List String)

/-- Snapshot.GetPeerResourceBindings: read the affinity group slice for the
anti key; a missing key reads as the empty list (a nil slice in the source). -/
def GetPeerResourceBindings (s : Snapshot) (ns key value : String) : List String :=
  (s.affinityGroups (MakeAntiKey ns key value)).getD []

/-- Snapshot.GetClustersForResourceBinding: read the stored cluster set of a
binding id; a missing id reads as the empty set (a nil set in the source). -/
def GetClustersForResourceBinding (s : Snapshot) (rbID : String) : Finset String :=
  (s.clustersByRB rbID).getD ∅

/-- schedulerCache.Snapshot at value level: the cluster roster is deep-copied
from the lister (value copy here); the index maps are copied only when the
WorkloadAffinity feature gate is enabled, and are otherwise left as the empty
maps of NewEmptySnapshot. -/
def SnapshotOf (c : CacheState) (clusters : List Cluster) (gate : Bool) : Snapshot :=
  if gate then
    { clusters := clusters,
      clustersByRB := c.clustersByRB,
      affinityGroups := c.affinityGroups }
  else
    { clusters := clusters,
      clustersByRB := fun _ => none,
      affinityGroups := fun _ => none }

/-- The result codes of the scheduler framework. -/
inductive Code where
  | Success
  | Unschedulable
  | Error
deriving DecidableEq

/-- A framework result: a code and the reason strings. -/
structure Result where
  code : Code
  reasons : List String
deriving DecidableEq

/-- framework.NewResult. -/
def NewResult (code : Code) (reasons : List String) : Result :=
  ⟨code, reasons⟩

/-- The peer loop of AntiAffinity.Filter: skip the binding itself; return
Unschedulable on the first peer whose stored cluster set has the candidate
cluster name; return Success after the loop. -/
def checkPeers (snap : Snapshot) (thisID clusterName : String) : List String → Result
  | [] => NewResult Code.Success []
  | peer :: rest =>
    if peer = thisID then checkPeers snap thisID clusterName rest
    else if clusterName ∈ GetClustersForResourceBinding snap peer then
      NewResult Code.Unschedulable
        ["cluster violates this resource bindings anti-affinity term"]
    else checkPeers snap thisID clusterName rest

/-- AntiAffinity.Filter: Success when the feature gate is disabled or the
placement has no WorkloadAffinity; Error when the snapshot is nil; Success
when the workload lacks a value for the affinity label; otherwise scan the
peer list of the affinity group. -/
def Filter (gate : Bool) (bindingSpec : ResourceBindingSpec) (cluster : Cluster)
    (snapshot : Option Snapshot) : Result :=
  if gate = false then NewResult Code.Success []
  else
    match bindingSpec.Placement.WorkloadAffinity with
    | none => NewResult Code.Success []
    | some wa =>
      match snapshot with
      | none => NewResult Code.Error ["anti-affinity snapshot is nil"]
      | some snap =>
        let antiAffinityLabelValue :=
          bindingSpec.Resource.AffinityGroupLabel wa.AffinityLabelKey
        if antiAffinityLabelValue = "" then NewResult Code.Success []
        else
          let thisID := bindingSpec.Resource.Namespace ++ "/" ++ bindingSpec.Resource.Name
          checkPeers snap thisID cluster.Name
            (GetPeerResourceBindings snap bindingSpec.Resource.Namespace
              wa.AffinityLabelKey antiAffinityLabelValue)

/-- Eligibility of a binding for indexRB: non-empty target clusters, a
WorkloadAffinity with non-empty AffinityLabelKey, and a non-empty value for
that label on the workload. -/
def eligibleRB (rb : ResourceBinding) : Bool :=
  if rb.Spec.Clusters.length = 0 then false
  else
    match rb.Spec.Placement.WorkloadAffinity with
    | none => false
    | some affinityTerm =>
      if affinityTerm.AffinityLabelKey = "" then false
      else if rb.Spec.Resource.AffinityGroupLabel affinityTerm.AffinityLabelKey = "" then false
      else true

/-- Eligibility of a binding for unindexRB (which does not look at the target
clusters): a WorkloadAffinity with non-empty AffinityLabelKey and a non-empty
group label value. -/
def unindexEligibleRB (rb : ResourceBinding) : Bool :=
  match rb.Spec.Placement.WorkloadAffinity with
  | none => false
  | some affinityTerm =>
    if affinityTerm.AffinityLabelKey = "" then false
    else if rb.Spec.Resource.AffinityGroupLabel affinityTerm.AffinityLabelKey = "" then false
    else true

/-- The AntiKey of a binding, meaningful when its placement carries a
WorkloadAffinity. -/
def affinityKeyOf (rb : ResourceBinding) : AntiKey :=
  match rb.Spec.Placement.WorkloadAffinity with
  | none => MakeAntiKey rb.Namespace "" ""
  | some affinityTerm =>
    MakeAntiKey rb.Namespace affinityTerm.AffinityLabelKey
      (rb.Spec.Resource.AffinityGroupLabel affinityTerm.AffinityLabelKey)

/-- A concrete affinity-group label map carrying karmada.io/group = alpha. -/
def agl0 : String → String :=
  fun k => if k = "karmada.io/group" then "alpha" else ""

/-- A concrete eligible binding ns1/job-a placed on clusterX with group alpha. -/
def b0 : ResourceBinding :=
  ⟨"ns1", "job-a",
    ⟨⟨some ⟨"karmada.io/group"⟩⟩, ⟨"ns1", "job-a", agl0⟩, [⟨"clusterX"⟩]⟩⟩

/-- The binding b0 delivered as an event payload. -/
def ob0 : Obj := Obj.rb b0

/-- The AntiKey of b0. -/
def k0 : AntiKey := MakeAntiKey "ns1" "karmada.io/group" "alpha"

/-- The empty cache state. -/
def emptyCache : CacheState := ⟨fun _ => none, fun _ => none⟩

/-- A concrete cache state in which ns1/job-a is already indexed under k0 and
placed on clusterX. -/
def cacheWithA : CacheState :=
  ⟨fun k => if k = k0 then some ["ns1/job-a"] else none,
   fun id => if id = "ns1/job-a" then some {"clusterX"} else none⟩

/-- A concrete binding ns1/job-a without a WorkloadAffinity directive. -/
def bNoTerm : ResourceBinding :=
  ⟨"ns1", "job-a", ⟨⟨none⟩, ⟨"ns1", "job-a", agl0⟩, [⟨"clusterX"⟩]⟩⟩

/-- A concrete pending binding spec for ns1/job-b with group alpha and no
target clusters yet. -/
def specB : ResourceBindingSpec :=
  ⟨⟨some ⟨"karmada.io/group"⟩⟩, ⟨"ns1", "job-b", agl0⟩, []⟩

/-- A concrete candidate cluster. -/
def clusterX : Cluster := ⟨"clusterX", true⟩

/-- A concrete snapshot in which peer ns1/job-a of group alpha occupies
clusterX. -/
def snapW1 : Snapshot :=
  ⟨[clusterX],
   fun id => if id = "ns1/job-a" then some {"clusterX"} else none,
   fun k => if k = k0 then some ["ns1/job-a"] else none⟩

/-- A concrete snapshot with an empty index. -/
def snapEmpty : Snapshot :=
  ⟨[clusterX], fun _ => none, fun _ => none⟩

/-!
Reference-and-heap model of the cache, used for the snapshot immutability
claim.  Go slices are cells of an explicit heap addressed by an index
reference; the cache maps bind keys to references.  unindexRB mutates the
referenced cell in place (the slice reuse in the source), and indexRB writes
the appended slice back through the existing reference; Snapshot copies every
referenced cell into a freshly allocated cell, as the source copy loops do.
-/

/-- Lookup in an association list modelling a Go map whose values are heap
references. -/
def lookupA {κ : Type} [DecidableEq κ] : List (κ × Nat) → κ → Option Nat
  | [], _ => none
  | (k, r) :: rest, key => if k = key then some r else lookupA rest key

/-- Map store: bind a key to a reference, replacing an existing binding. -/
def setA {κ : Type} [DecidableEq κ] : List (κ × Nat) → κ → Nat → List (κ × Nat)
  | [], key, r => [(key, r)]
  | (k, r0) :: rest, key, r =>
    if k = key then (key, r) :: rest else (k, r0) :: setA rest key r

/-- Map delete: drop the bindings of a key. -/
def removeA {κ : Type} [DecidableEq κ] : List (κ × Nat) → κ → List (κ × Nat)
  | [], _ => []
  | (k, r0) :: rest, key =>
    if k = key then removeA rest key else (k, r0) :: removeA rest key

/-- Dereference a slice cell; an out-of-range reference reads as empty. -/
def readL (heap : List (List String)) (r : Nat) : List String :=
  (heap.get? r).getD []

/-- Dereference a set cell; an out-of-range reference reads as empty. -/
def readS (heap : List (Finset String)) (r : Nat) : Finset String :=
  (heap.get? r).getD ∅

/-- The heap-model cache: two heaps of cells and the two maps of
schedulerCache holding references into them. -/
structure HState where
  heapL : List (List String)
  heapS : List (Finset String)
  groups : List (AntiKey × Nat)
  byRB : List (String × Nat)

/-- schedulerCache.indexRB in the heap model: same eligibility checks; the
append writes through the existing bucket reference when there is one and
allocates a fresh cell otherwise; the cluster set is a freshly allocated
cell. -/
def indexRBRef (h : HState) (rb : ResourceBinding) : HState :=
  if rb.Spec.Clusters.length = 0 then h
  else
    match rb.Spec.Placement.WorkloadAffinity with
    | none => h
    | some affinityTerm =>
      if affinityTerm.AffinityLabelKey = "" then h
      else
        let groupValue := rb.Spec.Resource.AffinityGroupLabel affinityTerm.AffinityLabelKey
        if groupValue = "" then h
        else
          let rbID := rbIDOf rb
          let key := MakeAntiKey rb.Namespace affinityTerm.AffinityLabelKey groupValue
          let h1 :=
            match lookupA h.groups key with
            | some r =>
              { h with heapL := h.heapL.set r (readL h.heapL r ++ [rbID]) }
            | none =>
              { h with heapL := h.heapL ++ [[rbID]],
                       groups := setA h.groups key h.heapL.length }
          { h1 with heapS := h1.heapS ++ [clusterSetOf rb],
                    byRB := setA h1.byRB rbID h1.heapS.length }

/-- schedulerCache.unindexRB in the heap model: same eligibility checks; the
removal loop writes the filtered slice through the existing bucket reference
(in place, as the source slice reuse does), deleting the map binding when the
filtered slice is empty; the byRB binding is deleted. -/
def unindexRBRef (h : HState) (rb : ResourceBinding) : HState :=
  match rb.Spec.Placement.WorkloadAffinity with
  | none => h
  | some affinityTerm =>
    if affinityTerm.AffinityLabelKey = "" then h
    else
      let groupValue := rb.Spec.Resource.AffinityGroupLabel affinityTerm.AffinityLabelKey
      if groupValue = "" then h
      else
        let rbID := rbIDOf rb
        let key := MakeAntiKey rb.Namespace affinityTerm.AffinityLabelKey groupValue
        let h1 :=
          match lookupA h.groups key with
          | none => h
          | some r =>
            let filtered := removeID (readL h.heapL r) rbID
            if filtered = [] then
              { h with heapL := h.heapL.set r filtered,
                       groups := removeA h.groups key }
            else
              { h with heapL := h.heapL.set r filtered }
        { h1 with byRB := removeA h1.byRB rbID }

/-- A snapshot in the heap model: the copied cluster roster plus maps binding
keys to the references of the copied cells. -/
structure SnapRef where
  clusters : List Cluster
  sgroups : List (AntiKey × Nat)
  sbyRB : List (String × Nat)

/-- The copy loop of schedulerCache.Snapshot: for each map entry allocate a
fresh cell (consecutively from start) holding a copy of the referenced cell,
and bind the key to the fresh reference. -/
def copyCells {κ α : Type} (read : List α) (dflt : α) (start : Nat) :
    List (κ × Nat) → List α × List (κ × Nat)
  | [] => ([], [])
  | (k, r) :: rest =>
    let res := copyCells read dflt (start + 1) rest
    (((read.get? r).getD dflt) :: res.1, (k, start) :: res.2)

/-- schedulerCache.Snapshot in the heap model: deep-copy the cluster roster
(values here), and, when the feature gate is enabled, copy both index maps
into freshly allocated cells appended to the heaps; when disabled the
snapshot keeps the empty maps of NewEmptySnapshot. -/
def takeSnapshotRef (h : HState) (clusters : List Cluster) (gate : Bool) :
    SnapRef × HState :=
  if gate then
    let cg := copyCells h.heapL [] h.heapL.length h.groups
    let cs := copyCells h.heapS ∅ h.heapS.length h.byRB
    (⟨clusters, cg.2, cs.2⟩,
     { h with heapL := h.heapL ++ cg.1, heapS := h.heapS ++ cs.1 })
  else
    (⟨clusters, [], []⟩, h)

/-- Snapshot.GetPeerResourceBindings in the heap model: dereference the
snapshot-owned bucket cell. -/
def GetPeersRef (s : SnapRef) (heapL : List (List String)) (ns key value : String) :
    List String :=
  match lookupA s.sgroups (MakeAntiKey ns key value) with
  | some r => readL heapL r
  | none => []

/-- Snapshot.GetClustersForResourceBinding in the heap model: dereference the
snapshot-owned set cell. -/
def GetClustersRef (s : SnapRef) (heapS : List (Finset String)) (rbID : String) :
    Finset String :=
  match lookupA s.sbyRB rbID with
  | some r => readS heapS r
  | none => ∅

/-- A binding event delivered to the cache handlers. -/
inductive Ev where
  | add (o : Obj)
  | update (o o2 : Obj)
  | del (o : Obj)

/-- OnResourceBindingAdd in the heap model. -/
def OnAddRef (h : HState) (obj : Obj) : HState :=
  match getRBFromObj obj with
  | none => h
  | some rb => indexRBRef h rb

/-- OnResourceBindingUpdate in the heap model. -/
def OnUpdateRef (h : HState) (oldObj newObj : Obj) : HState :=
  match getRBFromObj oldObj, getRBFromObj newObj with
  | some oldRB, some newRB => indexRBRef (unindexRBRef h oldRB) newRB
  | _, _ => h

/-- OnResourceBindingDelete in the heap model. -/
def OnDeleteRef (h : HState) (obj : Obj) : HState :=
  match getRBFromObj obj with
  | none => h
  | some rb => unindexRBRef h rb

/-- Apply one event to the heap-model cache. -/
def applyEv (h : HState) : Ev → HState
  | Ev.add o => OnAddRef h o
  | Ev.update o o2 => OnUpdateRef h o o2
  | Ev.del o => OnDeleteRef h o

/-- Apply a sequence of events to the heap-model cache. -/
def applyEvs (h : HState) : List Ev → HState
  | [] => h
  | e :: es => applyEvs (applyEv h e) es

/-- Well-formedness of the heap-model cache: every map reference points into
its heap. -/
def WFRef (h : HState) : Prop :=
  (∀ p ∈ h.groups, p.2 < h.heapL.length) ∧ (∀ p ∈ h.byRB, p.2 < h.heapS.length)

/-- Heap evolution discipline obeyed by every cache operation: heaps only
grow, every map reference is an old reference or a fresh one, and a cell that
no map reference points to is never written. -/
def EvolvesRef (h h2 : HState) : Prop :=
  h.heapL.length ≤ h2.heapL.length ∧
  h.heapS.length ≤ h2.heapS.length ∧
  (∀ p ∈ h2.groups, (∃ q ∈ h.groups, p.2 = q.2) ∨ h.heapL.length ≤ p.2) ∧
  (∀ p ∈ h2.byRB, (∃ q ∈ h.byRB, p.2 = q.2) ∨ h.heapS.length ≤ p.2) ∧
  (∀ r, r < h.heapL.length → (∀ q ∈ h.groups, q.2 ≠ r) →
    h2.heapL.get? r = h.heapL.get? r) ∧
  (∀ r, r < h.heapS.length → (∀ q ∈ h.byRB, q.2 ≠ r) →
    h2.heapS.get? r = h.heapS.get? r)

/-- A concrete well-formed heap-model cache holding the indexed binding
ns1/job-a of group alpha placed on clusterX. -/
def h0W : HState :=
  ⟨[["ns1/job-a"]], [{"clusterX"}], [(k0, 0)], [("ns1/job-a", 0)]⟩

/-- Apply one event to the value-level cache through the source handlers. -/
def applyEvC (c : CacheState) : Ev → CacheState
  | Ev.add o => OnResourceBindingAdd c o
  | Ev.update o o2 => OnResourceBindingUpdate c o o2
  | Ev.del o => OnResourceBindingDelete c o

/-- Apply a sequence of events to the value-level cache. -/
def applyEvsC (c : CacheState) : List Ev → CacheState
  | [] => c
  | e :: es => applyEvsC (applyEvC c e) es

/-- The freshness condition of one event: the insert it performs (if any)
happens while the inserted binding id is absent from the groups bucket it is
appended to; for an update the bucket is inspected after the old binding is
unindexed, matching the remove-then-insert order of the handler. -/
def freshAt (c : CacheState) : Ev → Bool
  | Ev.add o =>
    match getRBFromObj o with
    | none => true
    | some rb =>
      !(decide (rbIDOf rb ∈ (c.affinityGroups (affinityKeyOf rb)).getD []))
  | Ev.update o o2 =>
    match getRBFromObj o, getRBFromObj o2 with
    | some oldRB, some newRB =>
      !(decide (rbIDOf newRB ∈
        ((unindexRB c oldRB).affinityGroups (affinityKeyOf newRB)).getD []))
    | _, _ => true
  | Ev.del _ => true

/-- A sequence of events is insert-fresh from a cache state when every event
satisfies the freshness condition at the state it is applied to. -/
def safeSeq : CacheState → List Ev → Bool
  | _, [] => true
  | c, e :: es => freshAt c e && safeSeq (applyEvC c e) es

/-- The no-duplicates invariant: no binding id occurs more than once in any
single groups bucket. -/
def NodupGroups (c : CacheState) : Prop :=
  ∀ k, ((c.affinityGroups k).getD []).Nodup

@[ext]
theorem CacheState.ext {a b : CacheState}
    (hg : a.affinityGroups = b.affinityGroups)
    (hc : a.clustersByRB = b.clustersByRB) : a = b := by
  cases a; cases b; cases hg; cases hc; rfl

/-- Characterization of the peer loop of Filter: it yields Unschedulable
exactly when the list holds a peer other than the binding itself whose stored
cluster set has the candidate cluster name, and otherwise yields Success. -/
theorem checkPeers_spec (snap : Snapshot) (thisID clusterName : String)
    (l : List String) :
    ((checkPeers snap thisID clusterName l).code = Code.Unschedulable ↔
      ∃ peer ∈ l, peer ≠ thisID ∧ clusterName ∈ GetClustersForResourceBinding snap peer)
    ∧ ((¬ ∃ peer ∈ l, peer ≠ thisID ∧
          clusterName ∈ GetClustersForResourceBinding snap peer) →
        checkPeers snap thisID clusterName l = NewResult Code.Success []) := by
  induction l with
  | nil => simp [checkPeers, NewResult]
  | cons p rest ih =>
    simp only [checkPeers]
    split_ifs with hp hc
    · subst hp
      constructor
      · rw [ih.1]
        constructor
        · rintro ⟨peer, hm, hne, hcc⟩
          exact ⟨peer, List.mem_cons_of_mem _ hm, hne, hcc⟩
        · rintro ⟨peer, hm, hne, hcc⟩
          rcases List.mem_cons.mp hm with h | h
          · exact absurd h hne
          · exact ⟨peer, h, hne, hcc⟩
      · intro hno
        apply ih.2
        rintro ⟨peer, hm, hne, hcc⟩
        exact hno ⟨peer, List.mem_cons_of_mem _ hm, hne, hcc⟩
    · constructor
      · exact ⟨fun _ => ⟨p, List.mem_cons_self _ _, hp, hc⟩, fun _ => rfl⟩
      · intro hno
        exact absurd ⟨p, List.mem_cons_self _ _, hp, hc⟩ hno
    · constructor
      · rw [ih.1]
        constructor
        · rintro ⟨peer, hm, hne, hcc⟩
          exact ⟨peer, List.mem_cons_of_mem _ hm, hne, hcc⟩
        · rintro ⟨peer, hm, hne, hcc⟩
          rcases List.mem_cons.mp hm with h | h
          · subst h; exact absurd hcc hc
          · exact ⟨peer, h, hne, hcc⟩
      · intro hno
        apply ih.2
        rintro ⟨peer, hm, hne, hcc⟩
        exact hno ⟨peer, List.mem_cons_of_mem _ hm, hne, hcc⟩

/-- C1: with the feature gate enabled, the placement carrying a
WorkloadAffinity, a non-nil snapshot and a non-empty affinity-group label
value, Filter returns Unschedulable exactly when some peer id in
GetPeerResourceBindings other than the binding own namespace/name id has the
candidate cluster name in its stored cluster set, and otherwise returns
Success. -/
theorem filter_unschedulable_iff_peer_conflict
    (bindingSpec : ResourceBindingSpec) (cluster : Cluster) (snap : Snapshot)
    (wa : WorkloadAffinity)
    (hw : bindingSpec.Placement.WorkloadAffinity = some wa)
    (hv : bindingSpec.Resource.AffinityGroupLabel wa.AffinityLabelKey ≠ "") :
    ((Filter true bindingSpec cluster (some snap)).code = Code.Unschedulable ↔
      ∃ peer ∈ GetPeerResourceBindings snap bindingSpec.Resource.Namespace
          wa.AffinityLabelKey
          (bindingSpec.Resource.AffinityGroupLabel wa.AffinityLabelKey),
        peer ≠ bindingSpec.Resource.Namespace ++ "/" ++ bindingSpec.Resource.Name ∧
        cluster.Name ∈ GetClustersForResourceBinding snap peer)
    ∧ ((¬ ∃ peer ∈ GetPeerResourceBindings snap bindingSpec.Resource.Namespace
          wa.AffinityLabelKey
          (bindingSpec.Resource.AffinityGroupLabel wa.AffinityLabelKey),
        peer ≠ bindingSpec.Resource.Namespace ++ "/" ++ bindingSpec.Resource.Name ∧
        cluster.Name ∈ GetClustersForResourceBinding snap peer) →
      Filter true bindingSpec cluster (some snap) = NewResult Code.Success []) := by
  have hF : Filter true bindingSpec cluster (some snap) =
      checkPeers snap
        (bindingSpec.Resource.Namespace ++ "/" ++ bindingSpec.Resource.Name)
        cluster.Name
        (GetPeerResourceBindings snap bindingSpec.Resource.Namespace
          wa.AffinityLabelKey
          (bindingSpec.Resource.AffinityGroupLabel wa.AffinityLabelKey)) := by
    simp [Filter, hw, hv]
  rw [hF]
  exact checkPeers_spec snap _ _ _

/-- C1 witness: in the concrete snapshot where peer ns1/job-a of group alpha
occupies clusterX, filtering the pending binding ns1/job-b against clusterX
yields Unschedulable. -/
theorem filter_unschedulable_iff_peer_conflict_witness :
    (Filter true specB clusterX (some snapW1)).code = Code.Unschedulable :=
  (filter_unschedulable_iff_peer_conflict specB clusterX snapW1
      ⟨"karmada.io/group"⟩ rfl (by decide)).1.mpr
    ⟨"ns1/job-a", by decide, by decide, by decide⟩

/-- C4 counterexample: at a concrete pending binding with a WorkloadAffinity
and a nil snapshot, the reason of the returned result is not the string
claimed by the specification. -/
theorem filter_nil_snapshot_reason_counterexample :
    (Filter true specB clusterX none).reasons ≠ ["snapshot is nil"] := by
  decide

/-- C4 amended: with the feature gate enabled and the placement carrying a
WorkloadAffinity, Filter with a nil snapshot returns a result tagged Error
whose reason string is exactly "anti-affinity snapshot is nil". -/
theorem filter_nil_snapshot_error (bindingSpec : ResourceBindingSpec)
    (cluster : Cluster) (wa : WorkloadAffinity)
    (hw : bindingSpec.Placement.WorkloadAffinity = some wa) :
    Filter true bindingSpec cluster none =
      NewResult Code.Error ["anti-affinity snapshot is nil"] := by
  simp [Filter, hw]

/-- C4 amended witness: the concrete pending binding ns1/job-b with a nil
snapshot yields the Error result with the actual reason string. -/
theorem filter_nil_snapshot_error_witness :
    Filter true specB clusterX none =
      NewResult Code.Error ["anti-affinity snapshot is nil"] :=
  filter_nil_snapshot_error specB clusterX ⟨"karmada.io/group"⟩ rfl

/-- indexRB leaves the cache unchanged on an ineligible binding. -/
theorem indexRB_of_not_eligible (c : CacheState) (rb : ResourceBinding)
    (h : eligibleRB rb = false) : indexRB c rb = c := by
  by_cases h1 : rb.Spec.Clusters.length = 0
  · simp [indexRB, h1]
  · cases hwa : rb.Spec.Placement.WorkloadAffinity with
    | none => simp [indexRB, h1, hwa]
    | some t =>
      by_cases h2 : t.AffinityLabelKey = ""
      · simp [indexRB, h1, hwa, h2]
      · by_cases h3 : rb.Spec.Resource.AffinityGroupLabel t.AffinityLabelKey = ""
        · simp [indexRB, h1, hwa, h2, h3]
        · exfalso
          simp [eligibleRB, h1, hwa, h2, h3] at h

/-- unindexRB leaves the cache unchanged on a binding without a
WorkloadAffinity term, label key, or group label value. -/
theorem unindexRB_of_not_eligible (c : CacheState) (rb : ResourceBinding)
    (h : unindexEligibleRB rb = false) : unindexRB c rb = c := by
  cases hwa : rb.Spec.Placement.WorkloadAffinity with
  | none => simp [unindexRB, hwa]
  | some t =>
    by_cases h2 : t.AffinityLabelKey = ""
    · simp [unindexRB, hwa, h2]
    · by_cases h3 : rb.Spec.Resource.AffinityGroupLabel t.AffinityLabelKey = ""
      · simp [unindexRB, hwa, h2, h3]
      · exfalso
        simp [unindexEligibleRB, hwa, h2, h3] at h

/-- Removing an id that is not in a list leaves the list unchanged. -/
theorem removeID_of_not_mem (slice : List String) (x : String)
    (h : x ∉ slice) : removeID slice x = slice := by
  apply List.filter_eq_self.mpr
  intro a ha
  simp only [ne_eq, decide_not, Bool.not_eq_true', decide_eq_false_iff_not]
  intro e
  exact h (e ▸ ha)

/-- Removing an id from a list ending in that id strips exactly the final
element when the id does not occur earlier. -/
theorem removeID_append_self (slice : List String) (x : String) (h : x ∉ slice) :
    removeID (slice ++ [x]) x = slice := by
  unfold removeID
  rw [List.filter_append]
  have : removeID slice x = slice := removeID_of_not_mem slice x h
  unfold removeID at this
  rw [this]
  simp

/-- The removed id does not occur in the removal result. -/
theorem not_mem_removeID (slice : List String) (x : String) :
    x ∉ removeID slice x := by
  intro h
  have := List.of_mem_filter h
  simp at this

/-- C2 counterexample: delivering OnAdd twice for the same eligible binding
ns1/job-a leaves its id twice in the groups bucket of its key, so the bucket
list is not duplicate-free. -/
theorem onadd_duplicate_counterexample :
    ¬ (((OnResourceBindingAdd (OnResourceBindingAdd emptyCache ob0) ob0).affinityGroups
        k0).getD []).Nodup := by
  decide

/-- indexRB of an eligible binding always appends the binding id to the
groups bucket of its key, with no membership check, even when the id is
already present. -/
theorem indexRB_appends (c : CacheState) (rb : ResourceBinding)
    (h : eligibleRB rb = true) :
    (indexRB c rb).affinityGroups (affinityKeyOf rb) =
      some ((c.affinityGroups (affinityKeyOf rb)).getD [] ++ [rbIDOf rb]) := by
  by_cases h1 : rb.Spec.Clusters.length = 0
  · simp [eligibleRB, h1] at h
  · cases hwa : rb.Spec.Placement.WorkloadAffinity with
    | none => simp [eligibleRB, h1, hwa] at h
    | some t =>
      by_cases h2 : t.AffinityLabelKey = ""
      · simp [eligibleRB, h1, hwa, h2] at h
      · by_cases h3 : rb.Spec.Resource.AffinityGroupLabel t.AffinityLabelKey = ""
        · simp [eligibleRB, h1, hwa, h2, h3] at h
        · simp [indexRB, h1, hwa, h2, h3, affinityKeyOf]

/-- C3 counterexample: the event handlers never consult the feature gate, so
in particular with the gate disabled OnResourceBindingAdd still changes the
affinityGroups map at the key of the delivered binding. -/
theorem handlers_ignore_gate_counterexample :
    (OnResourceBindingAdd emptyCache ob0).affinityGroups k0 ≠
      emptyCache.affinityGroups k0 := by
  decide

/-- C3 amended: the event handlers update the index regardless of the feature
gate; what the disabled gate guarantees instead is that a snapshot taken with
the gate disabled omits the index maps, so every snapshot query returns the
empty answer. -/
theorem snapshot_omits_index_when_gate_disabled (c : CacheState)
    (clusters : List Cluster) (ns key value rbID : String) :
    GetPeerResourceBindings (SnapshotOf c clusters false) ns key value = [] ∧
    GetClustersForResourceBinding (SnapshotOf c clusters false) rbID = ∅ := by
  simp [SnapshotOf, GetPeerResourceBindings, GetClustersForResourceBinding]

/-- C5: OnAdd inserts a binding into both index maps (its id into the groups
bucket of its key and its target cluster set into clustersByRB) when the
three eligibility conditions hold, and leaves the cache entirely unchanged
otherwise. -/
theorem onadd_indexes_iff_eligible (c : CacheState) (rb : ResourceBinding) :
    (eligibleRB rb = true →
      rbIDOf rb ∈
        ((OnResourceBindingAdd c (Obj.rb rb)).affinityGroups (affinityKeyOf rb)).getD [] ∧
      (OnResourceBindingAdd c (Obj.rb rb)).clustersByRB (rbIDOf rb) =
        some (clusterSetOf rb)) ∧
    (eligibleRB rb = false → OnResourceBindingAdd c (Obj.rb rb) = c) := by
  constructor
  · intro h
    constructor
    · have hx : (OnResourceBindingAdd c (Obj.rb rb)).affinityGroups (affinityKeyOf rb) =
          some ((c.affinityGroups (affinityKeyOf rb)).getD [] ++ [rbIDOf rb]) :=
        indexRB_appends c rb h
      rw [hx]
      simp
    · by_cases h1 : rb.Spec.Clusters.length = 0
      · simp [eligibleRB, h1] at h
      · cases hwa : rb.Spec.Placement.WorkloadAffinity with
        | none => simp [eligibleRB, h1, hwa] at h
        | some t =>
          by_cases h2 : t.AffinityLabelKey = ""
          · simp [eligibleRB, h1, hwa, h2] at h
          · by_cases h3 : rb.Spec.Resource.AffinityGroupLabel t.AffinityLabelKey = ""
            · simp [eligibleRB, h1, hwa, h2, h3] at h
            · simp [OnResourceBindingAdd, getRBFromObj, indexRB, h1, hwa, h2, h3]
  · intro h
    show indexRB c rb = c
    exact indexRB_of_not_eligible c rb h

/-- C5 witness: adding the concrete eligible binding b0 to the empty cache
stores its id and its cluster set. -/
theorem onadd_indexes_iff_eligible_witness :
    rbIDOf b0 ∈
      ((OnResourceBindingAdd emptyCache (Obj.rb b0)).affinityGroups (affinityKeyOf b0)).getD [] ∧
    (OnResourceBindingAdd emptyCache (Obj.rb b0)).clustersByRB (rbIDOf b0) =
      some (clusterSetOf b0) :=
  (onadd_indexes_iff_eligible emptyCache b0).1 (by decide)

/-- C6 counterexample: OnDelete of a binding without a WorkloadAffinity
directive returns before the clustersByRB delete, so the stale clustersByRB
entry of ns1/job-a survives the delete event. -/
theorem ondelete_keeps_clusters_counterexample :
    (OnResourceBindingDelete cacheWithA (Obj.rb bNoTerm)).clustersByRB "ns1/job-a" ≠
      none := by
  decide

/-- C6 amended: the clustersByRB deletion of OnDelete is conditional: it
happens exactly when the delivered binding carries a WorkloadAffinity with a
non-empty AffinityLabelKey and a non-empty group label value; otherwise
OnDelete leaves the cache entirely unchanged. -/
theorem ondelete_deletes_clusters_iff_term (c : CacheState) (rb : ResourceBinding) :
    (unindexEligibleRB rb = true →
      (OnResourceBindingDelete c (Obj.rb rb)).clustersByRB (rbIDOf rb) = none) ∧
    (unindexEligibleRB rb = false → OnResourceBindingDelete c (Obj.rb rb) = c) := by
  constructor
  · intro h
    cases hwa : rb.Spec.Placement.WorkloadAffinity with
    | none => simp [unindexEligibleRB, hwa] at h
    | some t =>
      by_cases h2 : t.AffinityLabelKey = ""
      · simp [unindexEligibleRB, hwa, h2] at h
      · by_cases h3 : rb.Spec.Resource.AffinityGroupLabel t.AffinityLabelKey = ""
        · simp [unindexEligibleRB, hwa, h2, h3] at h
        · simp [OnResourceBindingDelete, getRBFromObj, unindexRB, hwa, h2, h3]
  · intro h
    show unindexRB c rb = c
    exact unindexRB_of_not_eligible c rb h

/-- C6 amended witness: deleting the concrete binding b0, which carries a
WorkloadAffinity and a group label, removes its clustersByRB entry. -/
theorem ondelete_deletes_clusters_iff_term_witness :
    (OnResourceBindingDelete cacheWithA (Obj.rb b0)).clustersByRB (rbIDOf b0) = none :=
  (ondelete_deletes_clusters_iff_term cacheWithA b0).1 (by decide)

/-- A binding eligible for indexRB is also eligible for unindexRB. -/
theorem unindexEligible_of_eligible (rb : ResourceBinding)
    (h : eligibleRB rb = true) : unindexEligibleRB rb = true := by
  by_cases h1 : rb.Spec.Clusters.length = 0
  · simp [eligibleRB, h1] at h
  · cases hwa : rb.Spec.Placement.WorkloadAffinity with
    | none => simp [eligibleRB, h1, hwa] at h
    | some t =>
      by_cases h2 : t.AffinityLabelKey = ""
      · simp [eligibleRB, h1, hwa, h2] at h
      · by_cases h3 : rb.Spec.Resource.AffinityGroupLabel t.AffinityLabelKey = ""
        · simp [eligibleRB, h1, hwa, h2, h3] at h
        · simp [unindexEligibleRB, hwa, h2, h3]

/-- Unfolding of indexRB on an eligible binding. -/
theorem indexRB_elig_spec (c : CacheState) (rb : ResourceBinding)
    (t : WorkloadAffinity)
    (hwa : rb.Spec.Placement.WorkloadAffinity = some t)
    (h1 : ¬rb.Spec.Clusters.length = 0)
    (h2 : t.AffinityLabelKey ≠ "")
    (h3 : rb.Spec.Resource.AffinityGroupLabel t.AffinityLabelKey ≠ "") :
    indexRB c rb =
      { affinityGroups := fun k =>
          if k = affinityKeyOf rb then
            some ((c.affinityGroups (affinityKeyOf rb)).getD [] ++ [rbIDOf rb])
          else c.affinityGroups k,
        clustersByRB := fun id =>
          if id = rbIDOf rb then some (clusterSetOf rb) else c.clustersByRB id } := by
  simp [indexRB, hwa, h1, h2, h3, affinityKeyOf, rbIDOf]

/-- Unfolding of unindexRB on an unindex-eligible binding whose groups bucket
is absent. -/
theorem unindexRB_elig_none (c : CacheState) (rb : ResourceBinding)
    (t : WorkloadAffinity)
    (hwa : rb.Spec.Placement.WorkloadAffinity = some t)
    (h2 : t.AffinityLabelKey ≠ "")
    (h3 : rb.Spec.Resource.AffinityGroupLabel t.AffinityLabelKey ≠ "")
    (hk : c.affinityGroups (affinityKeyOf rb) = none) :
    unindexRB c rb =
      { affinityGroups := c.affinityGroups,
        clustersByRB := fun id =>
          if id = rbIDOf rb then none else c.clustersByRB id } := by
  have hk' := hk
  simp only [affinityKeyOf, hwa] at hk'
  simp [unindexRB, hwa, h2, h3, hk', rbIDOf]

/-- Unfolding of unindexRB on an unindex-eligible binding whose groups bucket
is present and becomes empty after removing the binding id. -/
theorem unindexRB_elig_some_nil (c : CacheState) (rb : ResourceBinding)
    (t : WorkloadAffinity) (slice : List String)
    (hwa : rb.Spec.Placement.WorkloadAffinity = some t)
    (h2 : t.AffinityLabelKey ≠ "")
    (h3 : rb.Spec.Resource.AffinityGroupLabel t.AffinityLabelKey ≠ "")
    (hk : c.affinityGroups (affinityKeyOf rb) = some slice)
    (hf : removeID slice (rbIDOf rb) = []) :
    unindexRB c rb =
      { affinityGroups := fun k =>
          if k = affinityKeyOf rb then none else c.affinityGroups k,
        clustersByRB := fun id =>
          if id = rbIDOf rb then none else c.clustersByRB id } := by
  have hk' := hk
  simp only [affinityKeyOf, hwa] at hk'
  have hf' := hf
  simp only [rbIDOf] at hf'
  simp [unindexRB, hwa, h2, h3, hk', hf', rbIDOf, affinityKeyOf]

/-- Unfolding of unindexRB on an unindex-eligible binding whose groups bucket
is present and stays non-empty after removing the binding id. -/
theorem unindexRB_elig_some_cons (c : CacheState) (rb : ResourceBinding)
    (t : WorkloadAffinity) (slice : List String)
    (hwa : rb.Spec.Placement.WorkloadAffinity = some t)
    (h2 : t.AffinityLabelKey ≠ "")
    (h3 : rb.Spec.Resource.AffinityGroupLabel t.AffinityLabelKey ≠ "")
    (hk : c.affinityGroups (affinityKeyOf rb) = some slice)
    (hf : removeID slice (rbIDOf rb) ≠ []) :
    unindexRB c rb =
      { affinityGroups := fun k =>
          if k = affinityKeyOf rb then some (removeID slice (rbIDOf rb))
          else c.affinityGroups k,
        clustersByRB := fun id =>
          if id = rbIDOf rb then none else c.clustersByRB id } := by
  have hk' := hk
  simp only [affinityKeyOf, hwa] at hk'
  have hf' := hf
  simp only [rbIDOf] at hf'
  simp [unindexRB, hwa, h2, h3, hk', hf', rbIDOf, affinityKeyOf]

/-- After unindexRB of an unindex-eligible binding, the clustersByRB entry of
the binding id is gone. -/
theorem unindex_byRB_self (c : CacheState) (rb : ResourceBinding)
    (h : unindexEligibleRB rb = true) :
    (unindexRB c rb).clustersByRB (rbIDOf rb) = none := by
  cases hwa : rb.Spec.Placement.WorkloadAffinity with
  | none => simp [unindexEligibleRB, hwa] at h
  | some t =>
    by_cases h2 : t.AffinityLabelKey = ""
    · simp [unindexEligibleRB, hwa, h2] at h
    · by_cases h3 : rb.Spec.Resource.AffinityGroupLabel t.AffinityLabelKey = ""
      · simp [unindexEligibleRB, hwa, h2, h3] at h
      · cases hk : c.affinityGroups (affinityKeyOf rb) with
        | none => rw [unindexRB_elig_none c rb t hwa h2 h3 hk]; simp
        | some slice =>
          by_cases hf : removeID slice (rbIDOf rb) = []
          · rw [unindexRB_elig_some_nil c rb t slice hwa h2 h3 hk hf]; simp
          · rw [unindexRB_elig_some_cons c rb t slice hwa h2 h3 hk hf]; simp

/-- After unindexRB of an unindex-eligible binding, the groups bucket of its
key neither holds the binding id nor is stored as the empty list. -/
theorem unindex_bucket_self (c : CacheState) (rb : ResourceBinding)
    (h : unindexEligibleRB rb = true) :
    rbIDOf rb ∉ ((unindexRB c rb).affinityGroups (affinityKeyOf rb)).getD [] ∧
    (unindexRB c rb).affinityGroups (affinityKeyOf rb) ≠ some [] := by
  cases hwa : rb.Spec.Placement.WorkloadAffinity with
  | none => simp [unindexEligibleRB, hwa] at h
  | some t =>
    by_cases h2 : t.AffinityLabelKey = ""
    · simp [unindexEligibleRB, hwa, h2] at h
    · by_cases h3 : rb.Spec.Resource.AffinityGroupLabel t.AffinityLabelKey = ""
      · simp [unindexEligibleRB, hwa, h2, h3] at h
      · cases hk : c.affinityGroups (affinityKeyOf rb) with
        | none =>
          rw [unindexRB_elig_none c rb t hwa h2 h3 hk, hk]
          simp
        | some slice =>
          by_cases hf : removeID slice (rbIDOf rb) = []
          · rw [unindexRB_elig_some_nil c rb t slice hwa h2 h3 hk hf]
            simp
          · rw [unindexRB_elig_some_cons c rb t slice hwa h2 h3 hk hf]
            simp only [if_pos rfl]
            refine ⟨?_, ?_⟩
            · intro hmem
              exact not_mem_removeID slice (rbIDOf rb) (by simpa using hmem)
            · intro he
              apply hf
              simpa using he

/-- Core restoration fact: for a binding whose id is absent from the prior
cache (no clustersByRB entry, not in the bucket of its key) and whose bucket
is not stored empty, indexRB followed by unindexRB is the identity. -/
theorem unindex_index_restore (c : CacheState) (rb : ResourceBinding)
    (hby : c.clustersByRB (rbIDOf rb) = none)
    (hbucket : rbIDOf rb ∉ (c.affinityGroups (affinityKeyOf rb)).getD [])
    (hne : c.affinityGroups (affinityKeyOf rb) ≠ some []) :
    unindexRB (indexRB c rb) rb = c := by
  by_cases hel : eligibleRB rb = true
  · by_cases h1 : rb.Spec.Clusters.length = 0
    · simp [eligibleRB, h1] at hel
    · cases hwa : rb.Spec.Placement.WorkloadAffinity with
      | none => simp [eligibleRB, h1, hwa] at hel
      | some t =>
        by_cases h2 : t.AffinityLabelKey = ""
        · simp [eligibleRB, h1, hwa, h2] at hel
        · by_cases h3 : rb.Spec.Resource.AffinityGroupLabel t.AffinityLabelKey = ""
          · simp [eligibleRB, h1, hwa, h2, h3] at hel
          · rw [indexRB_elig_spec c rb t hwa h1 h2 h3]
            set L := (c.affinityGroups (affinityKeyOf rb)).getD [] with hL
            set c1 : CacheState :=
              { affinityGroups := fun k =>
                  if k = affinityKeyOf rb then some (L ++ [rbIDOf rb])
                  else c.affinityGroups k,
                clustersByRB := fun id =>
                  if id = rbIDOf rb then some (clusterSetOf rb)
                  else c.clustersByRB id } with hc1
            have hk1 : c1.affinityGroups (affinityKeyOf rb) = some (L ++ [rbIDOf rb]) := by
              simp [hc1]
            have hfa : removeID (L ++ [rbIDOf rb]) (rbIDOf rb) = L :=
              removeID_append_self L (rbIDOf rb) hbucket
            by_cases hLnil : L = []
            · have hfnil : removeID (L ++ [rbIDOf rb]) (rbIDOf rb) = [] := by
                rw [hfa, hLnil]
              rw [unindexRB_elig_some_nil c1 rb t (L ++ [rbIDOf rb]) hwa h2 h3 hk1 hfnil]
              have hknone : c.affinityGroups (affinityKeyOf rb) = none := by
                cases hko : c.affinityGroups (affinityKeyOf rb) with
                | none => rfl
                | some s =>
                  exfalso
                  apply hne
                  rw [hko]
                  have hs : L = s := by rw [hL, hko]; simp
                  rw [← hs, hLnil]
              apply CacheState.ext
              · funext k
                by_cases hkk : k = affinityKeyOf rb
                · subst hkk
                  simp [hknone]
                · simp [hkk, hc1]
              · funext id
                by_cases hid : id = rbIDOf rb
                · subst hid
                  simp [hby]
                · simp [hid, hc1]
            · have hfcons : removeID (L ++ [rbIDOf rb]) (rbIDOf rb) ≠ [] := by
                rw [hfa]; exact hLnil
              rw [unindexRB_elig_some_cons c1 rb t (L ++ [rbIDOf rb]) hwa h2 h3 hk1 hfcons,
                hfa]
              have hksome : c.affinityGroups (affinityKeyOf rb) = some L := by
                cases hko : c.affinityGroups (affinityKeyOf rb) with
                | none =>
                  exfalso
                  apply hLnil
                  rw [hL, hko]
                  rfl
                | some s =>
                  have hs : L = s := by rw [hL, hko]; simp
                  rw [hs]
              apply CacheState.ext
              · funext k
                by_cases hkk : k = affinityKeyOf rb
                · subst hkk
                  simp [hksome]
                · simp [hkk, hc1]
              · funext id
                by_cases hid : id = rbIDOf rb
                · subst hid
                  simp [hby]
                · simp [hid, hc1]
  · rw [indexRB_of_not_eligible c rb (by simpa using hel)]
    by_cases huel : unindexEligibleRB rb = true
    · cases hwa : rb.Spec.Placement.WorkloadAffinity with
      | none => simp [unindexEligibleRB, hwa] at huel
      | some t =>
        by_cases h2 : t.AffinityLabelKey = ""
        · simp [unindexEligibleRB, hwa, h2] at huel
        · by_cases h3 : rb.Spec.Resource.AffinityGroupLabel t.AffinityLabelKey = ""
          · simp [unindexEligibleRB, hwa, h2, h3] at huel
          · cases hk : c.affinityGroups (affinityKeyOf rb) with
            | none =>
              rw [unindexRB_elig_none c rb t hwa h2 h3 hk]
              apply CacheState.ext
              · rfl
              · funext id
                by_cases hid : id = rbIDOf rb
                · subst hid
                  simp [hby]
                · simp [hid]
            | some slice =>
              have hbs : rbIDOf rb ∉ slice := by
                rw [hk] at hbucket
                simpa using hbucket
              have hfs : removeID slice (rbIDOf rb) = slice :=
                removeID_of_not_mem slice (rbIDOf rb) hbs
              have hsnil : slice ≠ [] := by
                intro hh
                apply hne
                rw [hk, hh]
              have hfcons : removeID slice (rbIDOf rb) ≠ [] := by
                rw [hfs]; exact hsnil
              rw [unindexRB_elig_some_cons c rb t slice hwa h2 h3 hk hfcons, hfs]
              apply CacheState.ext
              · funext k
                by_cases hkk : k = affinityKeyOf rb
                · subst hkk
                  simp [hk]
                · simp [hkk]
              · funext id
                by_cases hid : id = rbIDOf rb
                · subst hid
                  simp [hby]
                · simp [hid]
    · exact unindexRB_of_not_eligible c rb (by simpa using huel)

/-- The remove-then-insert of an update with identical payloads stabilizes:
unindexRB after indexRB after unindexRB equals a single unindexRB. -/
theorem unindex_index_unindex (c : CacheState) (rb : ResourceBinding) :
    unindexRB (indexRB (unindexRB c rb) rb) rb = unindexRB c rb := by
  by_cases huel : unindexEligibleRB rb = true
  · have hby := unindex_byRB_self c rb huel
    have hb := unindex_bucket_self c rb huel
    exact unindex_index_restore (unindexRB c rb) rb hby hb.1 hb.2
  · have huel' : unindexEligibleRB rb = false := by simpa using huel
    have hel : eligibleRB rb = false := by
      by_cases he : eligibleRB rb = true
      · rw [unindexEligible_of_eligible rb he] at huel'
        exact absurd huel' (by simp)
      · simpa using he
    rw [unindexRB_of_not_eligible c rb huel',
      indexRB_of_not_eligible c rb hel,
      unindexRB_of_not_eligible c rb huel']

/-- indexRB leaves every groups bucket other than the bucket of the binding
key unchanged. -/
theorem indexRB_groups_other (c : CacheState) (rb : ResourceBinding) (k : AntiKey)
    (hkk : k ≠ affinityKeyOf rb) :
    (indexRB c rb).affinityGroups k = c.affinityGroups k := by
  by_cases hel : eligibleRB rb = true
  · by_cases h1 : rb.Spec.Clusters.length = 0
    · simp [eligibleRB, h1] at hel
    · cases hwa : rb.Spec.Placement.WorkloadAffinity with
      | none => simp [eligibleRB, h1, hwa] at hel
      | some t =>
        by_cases h2 : t.AffinityLabelKey = ""
        · simp [eligibleRB, h1, hwa, h2] at hel
        · by_cases h3 : rb.Spec.Resource.AffinityGroupLabel t.AffinityLabelKey = ""
          · simp [eligibleRB, h1, hwa, h2, h3] at hel
          · rw [indexRB_elig_spec c rb t hwa h1 h2 h3]
            simp [hkk]
  · rw [indexRB_of_not_eligible c rb (by simpa using hel)]

/-- indexRB preserves the no-duplicates invariant of the groups buckets when
the inserted binding id is absent from the bucket of its key. -/
theorem nodup_indexRB (c : CacheState) (rb : ResourceBinding)
    (hN : NodupGroups c)
    (habs : rbIDOf rb ∉ (c.affinityGroups (affinityKeyOf rb)).getD []) :
    NodupGroups (indexRB c rb) := by
  by_cases hel : eligibleRB rb = true
  · intro k
    by_cases hkk : k = affinityKeyOf rb
    · subst hkk
      rw [indexRB_appends c rb hel]
      simp only [Option.getD_some]
      refine List.nodup_append.mpr ⟨hN _, List.nodup_singleton _, ?_⟩
      intro a ha hb
      have hab : a = rbIDOf rb := by simpa using hb
      exact habs (hab ▸ ha)
    · rw [indexRB_groups_other c rb k hkk]
      exact hN k
  · rw [indexRB_of_not_eligible c rb (by simpa using hel)]
    exact hN

/-- unindexRB preserves the no-duplicates invariant of the groups buckets:
every bucket is unchanged or replaced by a filtered copy of itself. -/
theorem nodup_unindexRB (c : CacheState) (rb : ResourceBinding)
    (hN : NodupGroups c) : NodupGroups (unindexRB c rb) := by
  by_cases huel : unindexEligibleRB rb = true
  · cases hwa : rb.Spec.Placement.WorkloadAffinity with
    | none => simp [unindexEligibleRB, hwa] at huel
    | some t =>
      by_cases h2 : t.AffinityLabelKey = ""
      · simp [unindexEligibleRB, hwa, h2] at huel
      · by_cases h3 : rb.Spec.Resource.AffinityGroupLabel t.AffinityLabelKey = ""
        · simp [unindexEligibleRB, hwa, h2, h3] at huel
        · cases hk : c.affinityGroups (affinityKeyOf rb) with
          | none =>
            rw [unindexRB_elig_none c rb t hwa h2 h3 hk]
            intro k
            exact hN k
          | some slice =>
            by_cases hf : removeID slice (rbIDOf rb) = []
            · rw [unindexRB_elig_some_nil c rb t slice hwa h2 h3 hk hf]
              intro k
              by_cases hkk : k = affinityKeyOf rb
              · subst hkk
                simp
              · simp only [hkk]
                simp [hkk]
                exact hN k
            · rw [unindexRB_elig_some_cons c rb t slice hwa h2 h3 hk hf]
              intro k
              by_cases hkk : k = affinityKeyOf rb
              · subst hkk
                have hs : slice.Nodup := by
                  have h0 := hN (affinityKeyOf rb)
                  rw [hk] at h0
                  simpa using h0
                have hnd : (removeID slice (rbIDOf rb)).Nodup :=
                  List.Nodup.filter _ hs
                simpa using hnd
              · simp [hkk]
                exact hN k
  · rw [unindexRB_of_not_eligible c rb (by simpa using huel)]
    exact hN

/-- Any insert-fresh event sequence preserves the no-duplicates invariant of
the groups buckets. -/
theorem safe_seq_nodup (c : CacheState) (es : List Ev) (hN : NodupGroups c)
    (hsafe : safeSeq c es = true) : NodupGroups (applyEvsC c es) := by
  induction es generalizing c with
  | nil => exact hN
  | cons e rest ih =>
    simp only [safeSeq, Bool.and_eq_true] at hsafe
    have hstep : NodupGroups (applyEvC c e) := by
      cases e with
      | add o =>
        cases hro : getRBFromObj o with
        | none =>
          have he : applyEvC c (Ev.add o) = c := by
            simp [applyEvC, OnResourceBindingAdd, hro]
          rw [he]
          exact hN
        | some rb =>
          have hf := hsafe.1
          simp only [freshAt, hro, Bool.not_eq_true', decide_eq_false_iff_not] at hf
          have he : applyEvC c (Ev.add o) = indexRB c rb := by
            simp [applyEvC, OnResourceBindingAdd, hro]
          rw [he]
          exact nodup_indexRB c rb hN hf
      | update o o2 =>
        cases hro : getRBFromObj o with
        | none =>
          have he : applyEvC c (Ev.update o o2) = c := by
            simp [applyEvC, OnResourceBindingUpdate, hro]
          rw [he]
          exact hN
        | some oldRB =>
          cases hrn : getRBFromObj o2 with
          | none =>
            have he : applyEvC c (Ev.update o o2) = c := by
              simp [applyEvC, OnResourceBindingUpdate, hro, hrn]
            rw [he]
            exact hN
          | some newRB =>
            have hf := hsafe.1
            simp only [freshAt, hro, hrn, Bool.not_eq_true',
              decide_eq_false_iff_not] at hf
            have he : applyEvC c (Ev.update o o2) =
                indexRB (unindexRB c oldRB) newRB := by
              simp [applyEvC, OnResourceBindingUpdate, hro, hrn]
            rw [he]
            exact nodup_indexRB _ newRB (nodup_unindexRB c oldRB hN) hf
      | del o =>
        cases hro : getRBFromObj o with
        | none =>
          have he : applyEvC c (Ev.del o) = c := by
            simp [applyEvC, OnResourceBindingDelete, hro]
          rw [he]
          exact hN
        | some rb =>
          have he : applyEvC c (Ev.del o) = unindexRB c rb := by
            simp [applyEvC, OnResourceBindingDelete, hro]
          rw [he]
          exact nodup_unindexRB c rb hN
    exact ih (applyEvC c e) hstep hsafe.2

/-- C2 amended: a binding id can occur more than once in a groups bucket:
OnAdd of an eligible binding always appends its id with no membership check
(so OnAdd of an already-present id appends it a second time); the
no-duplicates invariant holds exactly under the proviso the unconditional
append forces: every event sequence whose inserts happen while the inserted
id is absent from its bucket preserves duplicate-freedom of all buckets. -/
theorem onadd_appends_and_safe_sequences_nodup (c : CacheState)
    (rb : ResourceBinding) (es : List Ev) :
    (eligibleRB rb = true →
      (OnResourceBindingAdd c (Obj.rb rb)).affinityGroups (affinityKeyOf rb) =
        some ((c.affinityGroups (affinityKeyOf rb)).getD [] ++ [rbIDOf rb])) ∧
    (NodupGroups c → safeSeq c es = true → NodupGroups (applyEvsC c es)) :=
  ⟨fun h => indexRB_appends c rb h,
   fun hN hsafe => safe_seq_nodup c es hN hsafe⟩

/-- C2 amended witness: adding the concrete eligible binding b0 to the empty
cache appends its id to the bucket of its key, and the insert-fresh sequence
of adding then deleting b0 keeps every bucket duplicate-free. -/
theorem onadd_appends_and_safe_sequences_nodup_witness :
    ((OnResourceBindingAdd emptyCache (Obj.rb b0)).affinityGroups (affinityKeyOf b0) =
      some ((emptyCache.affinityGroups (affinityKeyOf b0)).getD [] ++ [rbIDOf b0])) ∧
    NodupGroups (applyEvsC emptyCache [Ev.add ob0, Ev.del ob0]) :=
  ⟨(onadd_appends_and_safe_sequences_nodup emptyCache b0 []).1 (by decide),
   (onadd_appends_and_safe_sequences_nodup emptyCache b0 [Ev.add ob0, Ev.del ob0]).2
     (fun k => by simp [emptyCache]) (by decide)⟩

/-- C7 counterexample: from a concrete state in which ns1/job-a is already
indexed, OnAdd followed by OnDelete of the same binding empties the bucket
instead of restoring the one-element list. -/
theorem add_delete_not_restore_counterexample :
    (OnResourceBindingDelete (OnResourceBindingAdd cacheWithA ob0) ob0).affinityGroups
        k0 ≠ cacheWithA.affinityGroups k0 := by
  decide

/-- C7 amended: OnAdd followed by OnDelete of the same binding restores the
prior index state provided the binding id is absent from the prior index (no
groups bucket holds it and clustersByRB has no entry for it) and no groups
bucket is stored as an empty list, an invariant the handlers maintain. -/
theorem add_then_delete_restores (c : CacheState) (rb : ResourceBinding)
    (hby : c.clustersByRB (rbIDOf rb) = none)
    (hbucket : ∀ k, rbIDOf rb ∉ (c.affinityGroups k).getD [])
    (hne : ∀ k, c.affinityGroups k ≠ some []) :
    OnResourceBindingDelete (OnResourceBindingAdd c (Obj.rb rb)) (Obj.rb rb) = c := by
  show unindexRB (indexRB c rb) rb = c
  exact unindex_index_restore c rb hby (hbucket _) (hne _)

/-- C7 amended witness: on the empty cache, adding then deleting the concrete
binding b0 restores the empty cache. -/
theorem add_then_delete_restores_witness :
    OnResourceBindingDelete (OnResourceBindingAdd emptyCache (Obj.rb b0))
      (Obj.rb b0) = emptyCache :=
  add_then_delete_restores emptyCache b0 rfl
    (fun k => by simp [emptyCache])
    (fun k => by simp [emptyCache])

/-- C8 counterexample: OnUpdate with identical old and new payloads is not a
no-op: on the empty cache it indexes the binding. -/
theorem update_self_not_noop_counterexample :
    (OnResourceBindingUpdate emptyCache ob0 ob0).affinityGroups k0 ≠
      emptyCache.affinityGroups k0 := by
  decide

/-- Writing one cell leaves the other cells unchanged. -/
theorem hget_set_ne {α : Type} (l : List α) (r q : Nat) (v : α) (h : r ≠ q) :
    (l.set r v).get? q = l.get? q := by
  induction l generalizing r q with
  | nil => rfl
  | cons a tl ih =>
    cases r with
    | zero =>
      cases q with
      | zero => exact absurd rfl h
      | succ q2 => rfl
    | succ r2 =>
      cases q with
      | zero => rfl
      | succ q2 => exact ih r2 q2 (fun he => h (by rw [he]))

/-- Extending the heap leaves the existing cells unchanged. -/
theorem hget_append_left {α : Type} (l l2 : List α) (q : Nat) (h : q < l.length) :
    (l ++ l2).get? q = l.get? q := by
  induction l generalizing q with
  | nil => simp at h
  | cons a tl ih =>
    cases q with
    | zero => rfl
    | succ q2 => exact ih q2 (by simpa using h)

/-- A successful map lookup names an entry of the map. -/
theorem lookupA_mem {κ : Type} [DecidableEq κ] (l : List (κ × Nat)) (key : κ)
    (r : Nat) (h : lookupA l key = some r) : (key, r) ∈ l := by
  induction l with
  | nil => simp [lookupA] at h
  | cons p rest ih =>
    obtain ⟨k, r0⟩ := p
    rw [lookupA] at h
    by_cases hk : k = key
    · subst hk
      rw [if_pos rfl] at h
      injection h with h2
      subst h2
      exact List.mem_cons_self _ _
    · rw [if_neg hk] at h
      exact List.mem_cons_of_mem _ (ih h)

/-- An entry of a map store is an old entry or the stored binding. -/
theorem mem_setA {κ : Type} [DecidableEq κ] (l : List (κ × Nat)) (key : κ)
    (r : Nat) (p : κ × Nat) (h : p ∈ setA l key r) : p ∈ l ∨ p = (key, r) := by
  induction l with
  | nil =>
    right
    simpa [setA] using h
  | cons q rest ih =>
    obtain ⟨k, r0⟩ := q
    rw [setA] at h
    by_cases hk : k = key
    · rw [if_pos hk] at h
      rcases List.mem_cons.mp h with h1 | h1
      · right; exact h1
      · left; exact List.mem_cons_of_mem _ h1
    · rw [if_neg hk] at h
      rcases List.mem_cons.mp h with h1 | h1
      · left; rw [h1]; exact List.mem_cons_self _ _
      · rcases ih h1 with h2 | h2
        · left; exact List.mem_cons_of_mem _ h2
        · right; exact h2

/-- An entry of a map delete is an old entry. -/
theorem mem_removeA {κ : Type} [DecidableEq κ] (l : List (κ × Nat)) (key : κ)
    (p : κ × Nat) (h : p ∈ removeA l key) : p ∈ l := by
  induction l with
  | nil => simp [removeA] at h
  | cons q rest ih =>
    obtain ⟨k, r0⟩ := q
    rw [removeA] at h
    by_cases hk : k = key
    · rw [if_pos hk] at h
      exact List.mem_cons_of_mem _ (ih h)
    · rw [if_neg hk] at h
      rcases List.mem_cons.mp h with h1 | h1
      · rw [h1]; exact List.mem_cons_self _ _
      · exact List.mem_cons_of_mem _ (ih h1)

/-- The references of the copied entries are the freshly allocated ones. -/
theorem copyCells_snd_bounds {κ α : Type} (read : List α) (dflt : α) (start : Nat)
    (src : List (κ × Nat)) (p : κ × Nat)
    (h : p ∈ (copyCells read dflt start src).2) :
    start ≤ p.2 ∧ p.2 < start + src.length := by
  induction src generalizing start with
  | nil => simp [copyCells] at h
  | cons q rest ih =>
    obtain ⟨k, r⟩ := q
    simp only [copyCells] at h
    rcases List.mem_cons.mp h with h1 | h1
    · rw [h1]
      simp only [List.length_cons]
      omega
    · have := ih (start + 1) h1
      simp only [List.length_cons]
      omega

/-- The copy loop allocates one cell per map entry. -/
theorem copyCells_fst_length {κ α : Type} (read : List α) (dflt : α) (start : Nat)
    (src : List (κ × Nat)) :
    (copyCells read dflt start src).1.length = src.length := by
  induction src generalizing start with
  | nil => rfl
  | cons q rest ih =>
    obtain ⟨k, r⟩ := q
    simp only [copyCells, List.length_cons]
    rw [ih]

/-- EvolvesRef is reflexive. -/
theorem evolvesRef_refl (h : HState) : EvolvesRef h h :=
  ⟨le_refl _, le_refl _,
   fun p hp => Or.inl ⟨p, hp, rfl⟩,
   fun p hp => Or.inl ⟨p, hp, rfl⟩,
   fun _ _ _ => rfl,
   fun _ _ _ => rfl⟩

/-- EvolvesRef is transitive. -/
theorem evolvesRef_trans {h1 h2 h3 : HState}
    (a : EvolvesRef h1 h2) (b : EvolvesRef h2 h3) : EvolvesRef h1 h3 := by
  obtain ⟨aL, aS, aG, aB, aPL, aPS⟩ := a
  obtain ⟨bL, bS, bG, bB, bPL, bPS⟩ := b
  refine ⟨le_trans aL bL, le_trans aS bS, ?_, ?_, ?_, ?_⟩
  · intro p hp
    rcases bG p hp with ⟨q, hq, he⟩ | hge
    · rcases aG q hq with ⟨q1, hq1, he1⟩ | hge1
      · exact Or.inl ⟨q1, hq1, he.trans he1⟩
      · right; omega
    · right; omega
  · intro p hp
    rcases bB p hp with ⟨q, hq, he⟩ | hge
    · rcases aB q hq with ⟨q1, hq1, he1⟩ | hge1
      · exact Or.inl ⟨q1, hq1, he.trans he1⟩
      · right; omega
    · right; omega
  · intro r hr hnr
    have h2nr : ∀ q ∈ h2.groups, q.2 ≠ r := by
      intro q hq
      rcases aG q hq with ⟨q1, hq1, he1⟩ | hge1
      · rw [he1]; exact hnr q1 hq1
      · omega
    rw [bPL r (lt_of_lt_of_le hr aL) h2nr, aPL r hr hnr]
  · intro r hr hnr
    have h2nr : ∀ q ∈ h2.byRB, q.2 ≠ r := by
      intro q hq
      rcases aB q hq with ⟨q1, hq1, he1⟩ | hge1
      · rw [he1]; exact hnr q1 hq1
      · omega
    rw [bPS r (lt_of_lt_of_le hr aS) h2nr, aPS r hr hnr]

/-- indexRBRef obeys the heap evolution discipline. -/
theorem evolves_indexRBRef (h : HState) (rb : ResourceBinding) :
    EvolvesRef h (indexRBRef h rb) := by
  by_cases h1 : rb.Spec.Clusters.length = 0
  · simp only [indexRBRef, if_pos h1]
    exact evolvesRef_refl h
  · cases hwa : rb.Spec.Placement.WorkloadAffinity with
    | none =>
      simp only [indexRBRef, if_neg h1, hwa]
      exact evolvesRef_refl h
    | some t =>
      by_cases h2 : t.AffinityLabelKey = ""
      · simp only [indexRBRef, if_neg h1, hwa, if_pos h2]
        exact evolvesRef_refl h
      · by_cases h3 : rb.Spec.Resource.AffinityGroupLabel t.AffinityLabelKey = ""
        · simp only [indexRBRef, if_neg h1, hwa, if_neg h2]
          rw [if_pos h3]
          exact evolvesRef_refl h
        · cases hlk : lookupA h.groups
            (MakeAntiKey rb.Namespace t.AffinityLabelKey
              (rb.Spec.Resource.AffinityGroupLabel t.AffinityLabelKey)) with
          | some r =>
            have hre : indexRBRef h rb =
                { heapL := h.heapL.set r (readL h.heapL r ++ [rbIDOf rb]),
                  heapS := h.heapS ++ [clusterSetOf rb],
                  groups := h.groups,
                  byRB := setA h.byRB (rbIDOf rb) h.heapS.length } := by
              simp [indexRBRef, h1, hwa, h2, h3, hlk, rbIDOf]
            rw [hre]
            refine ⟨?_, ?_, ?_, ?_, ?_, ?_⟩
            · simp
            · simp
            · intro p hp
              exact Or.inl ⟨p, hp, rfl⟩
            · intro p hp
              rcases mem_setA _ _ _ p hp with hm | he
              · exact Or.inl ⟨p, hm, rfl⟩
              · right; rw [he]
            · intro q hq hnr
              have hrq : r ≠ q :=
                fun he => hnr _ (lookupA_mem _ _ _ hlk) he
              exact hget_set_ne _ r q _ hrq
            · intro q hq hnr
              exact hget_append_left _ _ q hq
          | none =>
            have hre : indexRBRef h rb =
                { heapL := h.heapL ++ [[rbIDOf rb]],
                  heapS := h.heapS ++ [clusterSetOf rb],
                  groups := setA h.groups
                    (MakeAntiKey rb.Namespace t.AffinityLabelKey
                      (rb.Spec.Resource.AffinityGroupLabel t.AffinityLabelKey))
                    h.heapL.length,
                  byRB := setA h.byRB (rbIDOf rb) h.heapS.length } := by
              simp [indexRBRef, h1, hwa, h2, h3, hlk, rbIDOf]
            rw [hre]
            refine ⟨?_, ?_, ?_, ?_, ?_, ?_⟩
            · simp
            · simp
            · intro p hp
              rcases mem_setA _ _ _ p hp with hm | he
              · exact Or.inl ⟨p, hm, rfl⟩
              · right; rw [he]
            · intro p hp
              rcases mem_setA _ _ _ p hp with hm | he
              · exact Or.inl ⟨p, hm, rfl⟩
              · right; rw [he]
            · intro q hq hnr
              exact hget_append_left _ _ q hq
            · intro q hq hnr
              exact hget_append_left _ _ q hq

/-- unindexRBRef obeys the heap evolution discipline. -/
theorem evolves_unindexRBRef (h : HState) (rb : ResourceBinding) :
    EvolvesRef h (unindexRBRef h rb) := by
  cases hwa : rb.Spec.Placement.WorkloadAffinity with
  | none =>
    simp only [unindexRBRef, hwa]
    exact evolvesRef_refl h
  | some t =>
    by_cases h2 : t.AffinityLabelKey = ""
    · simp only [unindexRBRef, hwa, if_pos h2]
      exact evolvesRef_refl h
    · by_cases h3 : rb.Spec.Resource.AffinityGroupLabel t.AffinityLabelKey = ""
      · simp only [unindexRBRef, hwa, if_neg h2]
        rw [if_pos h3]
        exact evolvesRef_refl h
      · cases hlk : lookupA h.groups
          (MakeAntiKey rb.Namespace t.AffinityLabelKey
            (rb.Spec.Resource.AffinityGroupLabel t.AffinityLabelKey)) with
        | none =>
          have hre : unindexRBRef h rb =
              { heapL := h.heapL, heapS := h.heapS, groups := h.groups,
                byRB := removeA h.byRB (rbIDOf rb) } := by
            simp [unindexRBRef, hwa, h2, h3, hlk, rbIDOf]
          rw [hre]
          refine ⟨le_refl _, le_refl _, ?_, ?_, ?_, ?_⟩
          · intro p hp
            exact Or.inl ⟨p, hp, rfl⟩
          · intro p hp
            exact Or.inl ⟨p, mem_removeA _ _ p hp, rfl⟩
          · intro q hq hnr; rfl
          · intro q hq hnr; rfl
        | some r =>
          by_cases hf : removeID (readL h.heapL r) (rbIDOf rb) = []
          · have hre : unindexRBRef h rb =
                { heapL := h.heapL.set r (removeID (readL h.heapL r) (rbIDOf rb)),
                  heapS := h.heapS,
                  groups := removeA h.groups
                    (MakeAntiKey rb.Namespace t.AffinityLabelKey
                      (rb.Spec.Resource.AffinityGroupLabel t.AffinityLabelKey)),
                  byRB := removeA h.byRB (rbIDOf rb) } := by
              have hf' := hf
              simp only [rbIDOf] at hf'
              simp [unindexRBRef, hwa, h2, h3, hlk, rbIDOf, hf']
            rw [hre]
            refine ⟨?_, le_refl _, ?_, ?_, ?_, ?_⟩
            · simp
            · intro p hp
              exact Or.inl ⟨p, mem_removeA _ _ p hp, rfl⟩
            · intro p hp
              exact Or.inl ⟨p, mem_removeA _ _ p hp, rfl⟩
            · intro q hq hnr
              have hrq : r ≠ q :=
                fun he => hnr _ (lookupA_mem _ _ _ hlk) he
              exact hget_set_ne _ r q _ hrq
            · intro q hq hnr; rfl
          · have hre : unindexRBRef h rb =
                { heapL := h.heapL.set r (removeID (readL h.heapL r) (rbIDOf rb)),
                  heapS := h.heapS,
                  groups := h.groups,
                  byRB := removeA h.byRB (rbIDOf rb) } := by
              have hf' := hf
              simp only [rbIDOf] at hf'
              simp [unindexRBRef, hwa, h2, h3, hlk, rbIDOf, hf']
            rw [hre]
            refine ⟨?_, le_refl _, ?_, ?_, ?_, ?_⟩
            · simp
            · intro p hp
              exact Or.inl ⟨p, hp, rfl⟩
            · intro p hp
              exact Or.inl ⟨p, mem_removeA _ _ p hp, rfl⟩
            · intro q hq hnr
              have hrq : r ≠ q :=
                fun he => hnr _ (lookupA_mem _ _ _ hlk) he
              exact hget_set_ne _ r q _ hrq
            · intro q hq hnr; rfl

/-- Every event application obeys the heap evolution discipline. -/
theorem evolves_applyEv (h : HState) (e : Ev) : EvolvesRef h (applyEv h e) := by
  cases e with
  | add o =>
    cases hro : getRBFromObj o with
    | none =>
      simp only [applyEv, OnAddRef, hro]
      exact evolvesRef_refl h
    | some rb =>
      simp only [applyEv, OnAddRef, hro]
      exact evolves_indexRBRef h rb
  | update o o2 =>
    cases hro : getRBFromObj o with
    | none =>
      simp only [applyEv, OnUpdateRef, hro]
      exact evolvesRef_refl h
    | some a =>
      cases hrn : getRBFromObj o2 with
      | none =>
        simp only [applyEv, OnUpdateRef, hro, hrn]
        exact evolvesRef_refl h
      | some b =>
        simp only [applyEv, OnUpdateRef, hro, hrn]
        exact evolvesRef_trans (evolves_unindexRBRef h a)
          (evolves_indexRBRef (unindexRBRef h a) b)
  | del o =>
    cases hro : getRBFromObj o with
    | none =>
      simp only [applyEv, OnDeleteRef, hro]
      exact evolvesRef_refl h
    | some rb =>
      simp only [applyEv, OnDeleteRef, hro]
      exact evolves_unindexRBRef h rb

/-- Event sequences obey the heap evolution discipline. -/
theorem evolves_applyEvs (h : HState) (es : List Ev) :
    EvolvesRef h (applyEvs h es) := by
  induction es generalizing h with
  | nil => exact evolvesRef_refl h
  | cons e rest ih =>
    exact evolvesRef_trans (evolves_applyEv h e) (ih (applyEv h e))

/-- A cell that no cache map reference points to keeps its slice content
across any event sequence. -/
theorem reads_preserved_L (h1 : HState) (es : List Ev) (r : Nat)
    (hlt : r < h1.heapL.length) (hnr : ∀ q ∈ h1.groups, q.2 ≠ r) :
    readL (applyEvs h1 es).heapL r = readL h1.heapL r := by
  unfold readL
  rw [(evolves_applyEvs h1 es).2.2.2.2.1 r hlt hnr]

/-- A cell that no cache map reference points to keeps its set content across
any event sequence. -/
theorem reads_preserved_S (h1 : HState) (es : List Ev) (r : Nat)
    (hlt : r < h1.heapS.length) (hnr : ∀ q ∈ h1.byRB, q.2 ≠ r) :
    readS (applyEvs h1 es).heapS r = readS h1.heapS r := by
  unfold readS
  rw [(evolves_applyEvs h1 es).2.2.2.2.2 r hlt hnr]

/-- C9: a snapshot taken by the cache is immutable with respect to the
originating index: for every well-formed heap-model cache and every
subsequent sequence of add, update and delete events, the snapshot queries
GetPeerResourceBindings and GetClustersForResourceBinding read the same
answers as at take time, because the snapshot dereferences only the freshly
copied cells, which no cache write touches; the cluster accessors read the
roster deep-copied into the snapshot value, which no event reaches. -/
theorem snapshot_immutable_under_writes (h0 : HState) (clusters : List Cluster)
    (gate : Bool) (es : List Ev) (hwf : WFRef h0) :
    (∀ ns key value,
      GetPeersRef (takeSnapshotRef h0 clusters gate).1
          (applyEvs (takeSnapshotRef h0 clusters gate).2 es).heapL ns key value =
        GetPeersRef (takeSnapshotRef h0 clusters gate).1
          (takeSnapshotRef h0 clusters gate).2.heapL ns key value) ∧
    (∀ rbID,
      GetClustersRef (takeSnapshotRef h0 clusters gate).1
          (applyEvs (takeSnapshotRef h0 clusters gate).2 es).heapS rbID =
        GetClustersRef (takeSnapshotRef h0 clusters gate).1
          (takeSnapshotRef h0 clusters gate).2.heapS rbID) := by
  cases gate with
  | false =>
    constructor
    · intro ns key value
      rfl
    · intro rbID
      rfl
  | true =>
    constructor
    · intro ns key value
      simp only [GetPeersRef]
      cases hlk : lookupA (takeSnapshotRef h0 clusters true).1.sgroups
          (MakeAntiKey ns key value) with
      | none => simp [hlk]
      | some r =>
        simp only [hlk]
        have hmem : (MakeAntiKey ns key value, r) ∈
            (copyCells h0.heapL [] h0.heapL.length h0.groups).2 :=
          lookupA_mem _ _ _ hlk
        have hb := copyCells_snd_bounds h0.heapL [] h0.heapL.length h0.groups _ hmem
        have hb1 : h0.heapL.length ≤ r := hb.1
        have hb2 : r < h0.heapL.length + h0.groups.length := hb.2
        have hlt : r < (takeSnapshotRef h0 clusters true).2.heapL.length := by
          show r < (h0.heapL ++ (copyCells h0.heapL [] h0.heapL.length h0.groups).1).length
          rw [List.length_append, copyCells_fst_length]
          omega
        have hnr : ∀ q ∈ (takeSnapshotRef h0 clusters true).2.groups, q.2 ≠ r := by
          intro q hq
          have hq0 : q ∈ h0.groups := hq
          have := hwf.1 q hq0
          omega
        exact reads_preserved_L _ es r hlt hnr
    · intro rbID
      simp only [GetClustersRef]
      cases hlk : lookupA (takeSnapshotRef h0 clusters true).1.sbyRB rbID with
      | none => simp [hlk]
      | some r =>
        simp only [hlk]
        have hmem : (rbID, r) ∈ (copyCells h0.heapS ∅ h0.heapS.length h0.byRB).2 :=
          lookupA_mem _ _ _ hlk
        have hb := copyCells_snd_bounds h0.heapS ∅ h0.heapS.length h0.byRB _ hmem
        have hb1 : h0.heapS.length ≤ r := hb.1
        have hb2 : r < h0.heapS.length + h0.byRB.length := hb.2
        have hlt : r < (takeSnapshotRef h0 clusters true).2.heapS.length := by
          show r < (h0.heapS ++ (copyCells h0.heapS ∅ h0.heapS.length h0.byRB).1).length
          rw [List.length_append, copyCells_fst_length]
          omega
        have hnr : ∀ q ∈ (takeSnapshotRef h0 clusters true).2.byRB, q.2 ≠ r := by
          intro q hq
          have hq0 : q ∈ h0.byRB := hq
          have := hwf.2 q hq0
          omega
        exact reads_preserved_S _ es r hlt hnr

/-- C9 witness: from the concrete well-formed cache holding ns1/job-a on
clusterX, after taking a snapshot and then deleting that binding from the
cache, the snapshot still answers the peer query as at take time. -/
theorem snapshot_immutable_under_writes_witness :
    GetPeersRef (takeSnapshotRef h0W [clusterX] true).1
        (applyEvs (takeSnapshotRef h0W [clusterX] true).2 [Ev.del ob0]).heapL
        "ns1" "karmada.io/group" "alpha" =
      GetPeersRef (takeSnapshotRef h0W [clusterX] true).1
        (takeSnapshotRef h0W [clusterX] true).2.heapL
        "ns1" "karmada.io/group" "alpha" :=
  (snapshot_immutable_under_writes h0W [clusterX] true [Ev.del ob0]
      (by constructor <;> decide)).1 "ns1" "karmada.io/group" "alpha"

/-- C10: OnResourceBindingUpdate drops the whole event atomically when either
payload is unrecognized (neither a ResourceBinding nor a tombstone wrapping
one): the old binding is not unindexed and the cache is entirely unchanged. -/
theorem update_malformed_dropped (c : CacheState) (oldObj newObj : Obj)
    (h : getRBFromObj oldObj = none ∨ getRBFromObj newObj = none) :
    OnResourceBindingUpdate c oldObj newObj = c := by
  cases ho : getRBFromObj oldObj with
  | none => simp [OnResourceBindingUpdate, ho]
  | some o =>
    cases hn : getRBFromObj newObj with
    | none => simp [OnResourceBindingUpdate, ho, hn]
    | some n =>
      rcases h with h | h
      · rw [ho] at h
        exact absurd h (by simp)
      · rw [hn] at h
        exact absurd h (by simp)

/-- C10 witness: an update whose old payload has an unrecognized shape leaves
the concrete cache unchanged. -/
theorem update_malformed_dropped_witness :
    OnResourceBindingUpdate cacheWithA Obj.other ob0 = cacheWithA :=
  update_malformed_dropped cacheWithA Obj.other ob0 (Or.inl rfl)

/-- C8 amended: OnUpdate with identical payloads is not a no-op; it equals
OnDelete followed by OnAdd of that payload (re-indexing the binding, which
appends its id at the end of its bucket), and it is idempotent: applying it
twice yields the same state as applying it once. -/
theorem update_self_decomposes_and_idempotent (c : CacheState) (o : Obj) :
    OnResourceBindingUpdate c o o =
      OnResourceBindingAdd (OnResourceBindingDelete c o) o ∧
    OnResourceBindingUpdate (OnResourceBindingUpdate c o o) o o =
      OnResourceBindingUpdate c o o := by
  cases hro : getRBFromObj o with
  | none =>
    simp [OnResourceBindingUpdate, OnResourceBindingAdd, OnResourceBindingDelete, hro]
  | some x =>
    constructor
    · simp [OnResourceBindingUpdate, OnResourceBindingAdd, OnResourceBindingDelete, hro]
    · simp only [OnResourceBindingUpdate, hro]
      rw [unindex_index_unindex c x]

end Karmada
